import Mathlib

/-!
Shallow embedding of `src/main.rs` (the "athens" command runner).

Rust strings are modelled as `List Char` (a sequence of Unicode scalar
values, exactly the view `str::chars()` exposes); Rust byte streams are
modelled as `List Nat` with every element a byte value.  Stateful code is
modelled by explicit state passing; fallible code returns `Except`.
The OS environment of a run (spawn success, stream contents, thread
panics, the child's exit status, temp-file creation) is passed in as an
explicit environment record.
-/

namespace Athens

/-- Origin tag of a captured line (`enum Stream` in the source). -/
inductive Stream where
  | Stdout
  | Stderr
deriving DecidableEq

/-- A captured output line with its origin (`struct Line` in the source). -/
structure Line where
  line : List Char
  stream : Stream
deriving DecidableEq

/-- The constant `MAX_LINES: u16 = 4` from the source. -/
def MAX_LINES : Nat := 4

/-- Display state (`struct State`).  The `ProgressBar` handle is modelled by
the one piece of its state the program writes: the current message
(`pb.set_message`).  Terminal size fields are plain numbers. -/
structure State where
  buf : List Line
  pbMessage : List Char
  max_lines : Nat
  _term_lines : Nat
  term_columns : Nat
deriving DecidableEq

/-- Byte length of a Rust string (`str::len`): the sum of the UTF-8 sizes of
its scalar values. -/
def byteLen (cs : List Char) : Nat := (cs.map Char.utf8Size).sum

/-- Render width used by `_build_msg`: `term_columns.saturating_sub(2)`
(`Nat` subtraction is saturating). -/
def stateWidth (s : State) : Nat := s.term_columns - 2

/-- The truncation inside `_build_msg`:
`line.chars().take(min(line.len(), width)).collect::<String>()`.
Note the source mixes units: `line.len()` is the byte length while `take`
counts scalar values. -/
def truncLine (cs : List Char) (width : Nat) : List Char :=
  cs.take (min (byteLen cs) width)

/-- The row formatter `_draw_line`: `format!("│{:<width$}│", line)`.
Rust's `{:<width$}` pads on the right with spaces up to `width`, counted in
scalar values, and never truncates. -/
def _draw_line (t : List Char) (width : Nat) : List Char :=
  '│' :: (t ++ List.replicate (width - t.length) ' ') ++ ['│']

/-- One rendered row of the tail window: the truncated text, styled by
origin (`dim` plus `cyan` for stdout, `yellow` for stderr), put in a box
row.  The ANSI styling applied by `console::style` only affects escape
sequences emitted on a colour terminal; the text content modelled here is
unchanged by it. -/
def renderRow (width : Nat) (l : Line) : List Char :=
  _draw_line (truncLine l.line width) width

/-- The blank padding row `_draw_line(" ", width)` from `_build_msg`. -/
def blankRow (width : Nat) : List Char :=
  _draw_line [' '] width

/-- The rows of `_build_msg` before they are joined with `"\n"`:
`buf[buf.len().saturating_sub(max_lines)..]` mapped through the row
renderer, then `.chain(blank rows).take(max_lines)`.  The source chains an
infinite `cycle` of the blank row; taking `max_lines` rows consumes at most
`max_lines` of them, so a `replicate max_lines` supply is equivalent. -/
def buildRows (s : State) : List (List Char) :=
  ((s.buf.drop (s.buf.length - s.max_lines)).map (renderRow (stateWidth s))
      ++ List.replicate s.max_lines (blankRow (stateWidth s))).take s.max_lines

/-- The function `_build_msg`: the rows joined with newlines. -/
def _build_msg (s : State) : List Char :=
  (buildRows s).intersperse ['\n'] |>.flatten

/-- The per-line update `progress`: push the line onto `buf`, rebuild the
message, hand it to the progress bar.  The source returns `Result<()>` but
never errors; it is modelled as a total state update. -/
def progress (s : State) (l : Line) : State :=
  let s' : State := { s with buf := s.buf ++ [l] }
  { s' with pbMessage := _build_msg s' }

/-- The constructor `State::new`: queries the terminal size (passed in here
as arguments), computes the box borders, creates the spinner.  The buffer
starts empty and `max_lines` is the constant `MAX_LINES`. -/
def State.new (termLines termColumns : Nat) : State :=
  { buf := [], pbMessage := [], max_lines := MAX_LINES,
    _term_lines := termLines, term_columns := termColumns }

/-- Content written by `State::dump`: `writeln!(.., "{}", line.line)` for
each buffered line, i.e. every entry's text followed by one newline, in
arrival order, with the origin tag dropped. -/
def dumpContents : List Line → List Char
  | [] => []
  | l :: ls => l.line ++ '\n' :: dumpContents ls

/-- Plain split of a text on newline characters; `n` newlines give `n + 1`
segments.  Used to read a dump file back. -/
def splitOnNl : List Char → List (List Char)
  | [] => [[]]
  | c :: cs =>
    if c = '\n' then [] :: splitOnNl cs
    else
      match splitOnNl cs with
      | [] => [[c]]
      | seg :: rest => (c :: seg) :: rest

/-- Reading a dump file back as a list of lines: split on newlines and drop
the empty segment produced by the file's final newline. -/
def readBackLines (cs : List Char) : List (List Char) :=
  let segs := splitOnNl cs
  if segs.getLast? = some [] then segs.dropLast else segs

/-- Is a byte a UTF-8 continuation byte (`0x80..=0xBF`)? -/
def contByte (b : Nat) : Bool := 0x80 ≤ b && b < 0xC0

/-- Constraint on the second and third byte of a three-byte UTF-8
sequence (RFC 3629: no overlong forms, no surrogates). -/
def threeByteCond (b b1 b2 : Nat) : Bool :=
  (if b = 0xE0 then 0xA0 ≤ b1 && b1 < 0xC0
   else if b = 0xED then 0x80 ≤ b1 && b1 < 0xA0
   else contByte b1) && contByte b2

/-- Constraint on the trailing bytes of a four-byte UTF-8 sequence
(RFC 3629: no overlong forms, nothing above `0x10FFFF`). -/
def fourByteCond (b b1 b2 b3 : Nat) : Bool :=
  (if b = 0xF0 then 0x90 ≤ b1 && b1 < 0xC0
   else if b = 0xF4 then 0x80 ≤ b1 && b1 < 0x90
   else contByte b1) && contByte b2 && contByte b3

/-- Decode one UTF-8 scalar value from a lead byte and the remaining
bytes: the decoded character together with the bytes left over, or `none`
when the sequence is invalid at this position. -/
def utf8DecodeStep (b : Nat) (bs : List Nat) : Option (Char × List Nat) :=
  if b < 0x80 then some (Char.ofNat b, bs)
  else if b < 0xC2 then none
  else if b < 0xE0 then
    match bs with
    | b1 :: rest =>
      if contByte b1 then
        some (Char.ofNat ((b - 0xC0) * 0x40 + (b1 - 0x80)), rest)
      else none
    | [] => none
  else if b < 0xF0 then
    match bs with
    | b1 :: b2 :: rest =>
      if threeByteCond b b1 b2 then
        some (Char.ofNat
          ((b - 0xE0) * 0x1000 + (b1 - 0x80) * 0x40 + (b2 - 0x80)), rest)
      else none
    | _ => none
  else if b < 0xF5 then
    match bs with
    | b1 :: b2 :: b3 :: rest =>
      if fourByteCond b b1 b2 b3 then
        some (Char.ofNat
          ((b - 0xF0) * 0x40000 + (b1 - 0x80) * 0x1000
            + (b2 - 0x80) * 0x40 + (b3 - 0x80)), rest)
      else none
    | _ => none
  else none

/-- Fuelled decoding loop: one `utf8DecodeStep` per iteration.  The fuel
only serves structural recursion; each step consumes at least the lead
byte, so a fuel equal to the list length never runs out. -/
def utf8DecodeGo : Nat → List Nat → Option (List Char)
  | _, [] => some []
  | 0, _ :: _ => none
  | fuel + 1, b :: bs =>
    match utf8DecodeStep b bs with
    | none => none
    | some (c, rest) => (utf8DecodeGo fuel rest).map (fun cs => c :: cs)

/-- Strict UTF-8 decoding of a byte sequence into scalar values, as
performed by Rust's `String` validation inside `BufRead::read_line`
(RFC 3629: shortest forms only, surrogates and values above `0x10FFFF`
rejected).  Returns `none` exactly on invalid input. -/
def utf8Decode (l : List Nat) : Option (List Char) :=
  utf8DecodeGo l.length l

/-- The chunks successive `BufRead::read_line` calls produce from a byte
stream: maximal segments ending in the byte `0x0A`, with a final segment
without it when the stream does not end in a newline; an empty stream gives
no chunks. -/
def readLineChunks : List Nat → List (List Nat)
  | [] => []
  | b :: bs =>
    if b = 10 then [10] :: readLineChunks bs
    else
      match readLineChunks bs with
      | [] => [[b]]
      | c :: cs => (b :: c) :: cs

/-- The line-ending strip in `Lines::next`: pop a trailing `'\n'` if
present, and only then pop a trailing `'\r'` if present. -/
def stripLineEnding (cs : List Char) : List Char :=
  if cs.getLast? = some '\n' then
    let cs' := cs.dropLast
    if cs'.getLast? = some '\r' then cs'.dropLast else cs'
  else cs

/-- The failure a reader produces on a pure byte stream: the `InvalidData`
I/O error `read_line` raises on invalid UTF-8, which the error taxonomy
calls `DecodeError`.  A transport-level read failure (`IOError`) cannot
occur on an in-memory byte list and has no representation here. -/
inductive ReadError where
  | decodeError
deriving DecidableEq

/-- One item of the `lines()` iterator: decode the chunk read by
`read_line`, then strip the line ending. -/
def linesNext (c : List Nat) : Except ReadError (List Char) :=
  match utf8Decode c with
  | none => .error .decodeError
  | some cs => .ok (stripLineEnding cs)

/-- The loop body of `_read_stream` over the chunks of the stream: each
successfully decoded line is sent to the channel tagged with the origin;
the first failing item aborts the loop with its error (`line?`), so nothing
after it is sent. -/
def sendLines (st : Stream) :
    List (List Nat) → List Line × Except ReadError Unit
  | [] => ([], .ok ())
  | c :: cs =>
    match linesNext c with
    | .error e => ([], .error e)
    | .ok t =>
      let r := sendLines st cs
      (⟨t, st⟩ :: r.1, r.2)

/-- The reader `_read_stream`: iterate `BufReader::new(reader).lines()`,
sending each line tagged with the given origin.  The first component is
the sequence of lines sent to the channel, the second the function's
`Result` (the only failure a pure byte stream can produce is the decode
error; a transport-level read error has no representation here). -/
def _read_stream (input : List Nat) (st : Stream) :
    List Line × Except ReadError Unit :=
  sendLines st (readLineChunks input)

/-- Segments of a byte stream between newline bytes, each with a flag
telling whether it was terminated by a newline; the newline itself is not
part of the segment.  A final unterminated segment is kept; a trailing
newline produces no extra segment. -/
def splitSegs : List Nat → List (List Nat × Bool)
  | [] => []
  | b :: bs =>
    if b = 10 then ([], true) :: splitSegs bs
    else
      match splitSegs bs with
      | [] => [([b], false)]
      | (s, f) :: rest => (b :: s, f) :: rest

/-- Strip one trailing carriage return from a text if present. -/
def stripCRchar (cs : List Char) : List Char :=
  if cs.getLast? = some '\r' then cs.dropLast else cs

/-- Claim C10 as stated: split on newlines, strip a single trailing `'\r'`
from every line, keep a final unterminated line.  This follows the claim's
words; it is the comparison point, not the source. -/
def claimedLinesC10 (input : List Nat) : List (List Char) :=
  (splitSegs input).map (fun p => stripCRchar ((utf8Decode p.1).getD []))

/-- The amended splitting semantics: a trailing `'\r'` is stripped only
from lines that were terminated by `'\n'`; a final unterminated line is
delivered as decoded, keeping any trailing `'\r'`. -/
def amendedLinesC10 (input : List Nat) : List (List Char) :=
  (splitSegs input).map
    (fun p =>
      if p.2 then stripCRchar ((utf8Decode p.1).getD [])
      else (utf8Decode p.1).getD [])

/-- The decoded, stripped text of one chunk whose decode succeeded. -/
def chunkText (c : List Nat) : List Char :=
  stripLineEnding ((utf8Decode c).getD [])

/-- Exit status of the child process (`std::process::ExitStatus`):
whether it counts as success, and the numeric code when one exists. -/
structure ExitStatus where
  success : Bool
  code : Option Int
deriving DecidableEq

/-- The `console::Color` values the program uses. -/
inductive Color where
  | green
  | red
deriving DecidableEq

/-- The error taxonomy of a run, one constructor per distinct `anyhow`
error the source produces: spawn failure (`cmd.spawn()?`), a missing
stream handle (`couldn't get stderr/stdout`), the decode failure of a
reader (`InvalidData` from `read_line`), another I/O failure, the panic of
a reader thread (`thread panicked while reading ...`), and the panic of
the collector thread (`thread panicked`). -/
inductive RunError where
  | spawnError
  | streamUnavailable (which : Stream)
  | decodeError
  | ioError
  | workerFailure (which : Stream)
  | collectorPanicked
deriving DecidableEq

deriving instance DecidableEq for Except

/-- Environment of one `collect` call: whether the two stream handles can
be taken from the child, the bytes each stream will deliver, whether each
reader thread panics instead of running to completion, and the result of
`child.wait()`. -/
structure CollectEnv where
  stderrAvail : Bool
  stdoutAvail : Bool
  stderrBytes : List Nat
  stdoutBytes : List Nat
  errPanics : Bool
  outPanics : Bool
  waitResult : Except RunError ExitStatus
deriving DecidableEq

/-- The result a reader thread hands to `join`: the thread's `Result`
when it ran to completion, mapped into the run's error taxonomy. -/
def readerResult (input : List Nat) (st : Stream) : Except RunError Unit :=
  match (_read_stream input st).2 with
  | .error .decodeError => .error .decodeError
  | .ok () => .ok ()

/-- The merger `collect`: take stderr then stdout from the child handle
(failing with the corresponding `anyhow` error), start one reader thread
per stream, `child.wait()`, then join the stderr thread and the stdout
thread in that order — a join of a panicked thread becomes the
`thread panicked while reading ...` error, and a joined thread's own
`Result` is propagated by `??`. -/
def collect (env : CollectEnv) : Except RunError ExitStatus :=
  if !env.stderrAvail then .error (.streamUnavailable .Stderr)
  else if !env.stdoutAvail then .error (.streamUnavailable .Stdout)
  else
    match env.waitResult with
    | .error e => .error e
    | .ok status =>
      if env.errPanics then .error (.workerFailure .Stderr)
      else
        match readerResult env.stderrBytes .Stderr with
        | .error e => .error e
        | .ok () =>
          if env.outPanics then .error (.workerFailure .Stdout)
          else
            match readerResult env.stdoutBytes .Stdout with
            | .error e => .error e
            | .ok () => .ok status

/-- Environment of one whole run: whether `cmd.spawn()` succeeds, the
environment of the collector, whether the collector thread itself panics,
whether the temp-file dump succeeds, the path the platform chooses for it,
and the terminal size `State::new` reads. -/
structure RunEnv where
  spawnOk : Bool
  collectEnv : CollectEnv
  collectorPanics : Bool
  dumpOk : Bool
  dumpPath : List Char
  termLines : Nat
  termColumns : Nat
deriving DecidableEq

/-- The function `spawn`: pipe both streams, spawn the child (`SpawnError`
on failure, before any line is processed), run the collector on a thread,
process every line delivered on the channel with the callback (the only
callback used is `progress`, which never errors, so the loop always drains
the channel), then join the collector and propagate its result.
`delivered` is the sequence of lines received on the channel — some
interleaving of the two readers' sends, whose per-stream content is
governed by `_read_stream`. -/
def spawnRun (env : RunEnv) (delivered : List Line) (s : State) :
    Except RunError ExitStatus × State :=
  if !env.spawnOk then (.error .spawnError, s)
  else
    (if env.collectorPanics then .error .collectorPanicked
     else collect env.collectEnv,
     delivered.foldl progress s)

/-- The success banner `"Success!"`. -/
def msgSuccess : List Char := "Success!".data

/-- The failure banner: `format!("Command exited with status: {}", ...)`
with the numeric code, or `"none"` when the status carries no code. -/
def failureMsgChars (status : ExitStatus) : List Char :=
  "Command exited with status: ".data ++
    (match status.code with
     | some c => (toString c).data
     | none => "none".data)

/-- Observable effects of one run: whether the live indicator was created
(`State::new` always creates it and starts its steady tick), whether
`pb.finish_and_clear()` was called before returning, whether the dump file
was written and kept, and the `(message, colour)` presentation chosen for
the result summary (`None` when the run errored before choosing one). -/
structure RunTrace where
  indicatorCreated : Bool
  indicatorCleared : Bool
  dumpWritten : Bool
  presentation : Option (List Char × Color)
deriving DecidableEq

/-- The entry point `spawn_with_progress`: build the command, create the
display state (the live indicator starts here), set the initial message,
run `spawn` with `progress` as the callback; on error the `?` operator
returns at once — before `finish_and_clear`, before any dump.  On success
it stops and clears the indicator, chooses the success or failure
presentation from `status.success()`, writes the dump file (an I/O error
there aborts the run after the indicator was already cleared), prints the
path and the banner, and returns the status with the path. -/
def spawn_with_progress (env : RunEnv) (delivered : List Line) :
    Except RunError (ExitStatus × List Char) × RunTrace :=
  let s0 := State.new env.termLines env.termColumns
  let s1 : State := { s0 with pbMessage := _build_msg s0 }
  match spawnRun env delivered s1 with
  | (.error e, _) => (.error e, ⟨true, false, false, none⟩)
  | (.ok status, _) =>
    let pres :=
      if status.success then (msgSuccess, Color.green)
      else (failureMsgChars status, Color.red)
    if env.dumpOk then
      (.ok (status, env.dumpPath), ⟨true, true, true, some pres⟩)
    else
      (.error .ioError, ⟨true, true, false, some pres⟩)

/-! Concrete example values used to instantiate the theorems below. -/

/-- A successful exit status with code `0`. -/
def exStatusOk : ExitStatus := ⟨true, some 0⟩

/-- A failed exit status with code `3`. -/
def exStatusFail : ExitStatus := ⟨false, some 3⟩

/-- A quiet, fault-free collect environment with a successful child. -/
def exCollectOk : CollectEnv := ⟨true, true, [], [], false, false, .ok exStatusOk⟩

/-- A fault-free collect environment whose child exits with status `3`. -/
def exCollectFail : CollectEnv :=
  ⟨true, true, [], [], false, false, .ok exStatusFail⟩

/-- A run environment whose `cmd.spawn()` fails. -/
def exEnvSpawnFail : RunEnv := ⟨false, exCollectOk, false, true, [], 10, 80⟩

/-- A run environment whose child exits with a non-success status. -/
def exEnvChildFail : RunEnv :=
  ⟨true, exCollectFail, false, true, "/tmp/out".data, 10, 80⟩

/-- Two captured lines, one per stream. -/
def exLines : List Line := [⟨"hi".data, .Stdout⟩, ⟨"yo".data, .Stderr⟩]

/-- A display state holding `exLines` at terminal size `10 × 12`. -/
def exState : State := ⟨exLines, [], 4, 10, 12⟩

/-- The byte stream `"hi\nthere\n"`. -/
def exC4Input : List Nat := [104, 105, 10, 116, 104, 101, 114, 101, 10]

/-- The byte stream `"h\n"`, then an invalid byte and a newline, then
`"a\n"`. -/
def exC9Input : List Nat := [104, 10, 255, 10, 97, 10]

/-- The byte stream `"a\r\nb\n"` (one CRLF line, one LF line). -/
def exC10Input : List Nat := [97, 13, 10, 98, 10]

/-! Helper lemmas. -/

theorem length_le_byteLen (cs : List Char) : cs.length ≤ byteLen cs := by
  induction cs with
  | nil => simp [byteLen]
  | cons c cs ih =>
    have := c.utf8Size_pos
    simp only [byteLen, List.map_cons, List.sum_cons, List.length_cons] at ih ⊢
    omega

theorem foldl_progress_buf (ls : List Line) (s : State) :
    (ls.foldl progress s).buf = s.buf ++ ls := by
  induction ls generalizing s with
  | nil => simp
  | cons l ls ih => simp [ih, progress]

theorem splitOnNl_ne_nil (cs : List Char) : splitOnNl cs ≠ [] := by
  cases cs with
  | nil => simp [splitOnNl]
  | cons c cs =>
    simp only [splitOnNl]
    split
    · simp
    · split <;> simp_all

theorem splitOnNl_append_line (t rest : List Char) (h : '\n' ∉ t) :
    splitOnNl (t ++ '\n' :: rest) = t :: splitOnNl rest := by
  induction t with
  | nil => simp [splitOnNl]
  | cons c t ih =>
    have hc : c ≠ '\n' := fun hc => h (hc ▸ List.mem_cons_self c t)
    have ht : '\n' ∉ t := fun ht => h (List.mem_cons_of_mem c ht)
    simp only [List.cons_append, splitOnNl, if_neg hc, List.append_eq]
    rw [ih ht]

theorem splitOnNl_dumpContents (ls : List Line)
    (h : ∀ l ∈ ls, '\n' ∉ l.line) :
    splitOnNl (dumpContents ls) = ls.map Line.line ++ [[]] := by
  induction ls with
  | nil => simp [dumpContents, splitOnNl]
  | cons l ls ih =>
    have hl : '\n' ∉ l.line := h l (List.mem_cons_self l ls)
    have hrest : ∀ x ∈ ls, '\n' ∉ x.line :=
      fun x hx => h x (List.mem_cons_of_mem l hx)
    simp only [dumpContents, splitOnNl_append_line l.line _ hl, ih hrest,
      List.map_cons, List.cons_append]

theorem contByte_of_lt (a : Nat) (ha : a < 0x80) : contByte a = false := by
  simp only [contByte, Bool.and_eq_false_iff, decide_eq_false_iff_not]
  left; omega

theorem utf8DecodeStep_length (b : Nat) (bs : List Nat) (c : Char)
    (rest : List Nat) (h : utf8DecodeStep b bs = some (c, rest)) :
    rest.length ≤ bs.length := by
  unfold utf8DecodeStep at h
  rcases bs with _ | ⟨b1, _ | ⟨b2, _ | ⟨b3, rest2⟩⟩⟩
  all_goals (repeat' split at h)
  all_goals simp_all
  all_goals omega

set_option maxHeartbeats 2000000 in
theorem utf8DecodeStep_append (b : Nat) (bs : List Nat) (c : Char)
    (rest xs : List Nat) (h : utf8DecodeStep b bs = some (c, rest)) :
    utf8DecodeStep b (bs ++ xs) = some (c, rest ++ xs) := by
  unfold utf8DecodeStep at h ⊢
  rcases bs with _ | ⟨b1, _ | ⟨b2, _ | ⟨b3, rest2⟩⟩⟩
  all_goals (repeat' split at h)
  all_goals (try simp_all)
  all_goals (try (repeat' split))
  all_goals (try simp_all)
  all_goals omega

set_option maxHeartbeats 2000000 in
theorem utf8DecodeStep_append_none (b a : Nat) (bs : List Nat)
    (ha : a < 0x80) (h : utf8DecodeStep b bs = none) :
    utf8DecodeStep b (bs ++ [a]) = none := by
  have hca := contByte_of_lt a ha
  unfold utf8DecodeStep at h ⊢
  rcases bs with _ | ⟨b1, _ | ⟨b2, _ | ⟨b3, rest2⟩⟩⟩
  all_goals (repeat' split at h)
  all_goals (try simp_all [threeByteCond, fourByteCond])
  all_goals (try (repeat' split))
  all_goals (try simp_all)
  all_goals omega

theorem utf8DecodeGo_succ (fuel : Nat) (l : List Nat) (h : l.length ≤ fuel) :
    utf8DecodeGo (fuel + 1) l = utf8DecodeGo fuel l := by
  induction fuel generalizing l with
  | zero =>
    cases l with
    | nil => rfl
    | cons b bs => simp at h
  | succ fuel ih =>
    cases l with
    | nil => rfl
    | cons b bs =>
      simp only [utf8DecodeGo]
      cases hstep : utf8DecodeStep b bs with
      | none => rfl
      | some p =>
        obtain ⟨c, rest⟩ := p
        have hr := utf8DecodeStep_length b bs c rest hstep
        simp only [List.length_cons] at h
        dsimp only
        rw [ih rest (by omega)]

theorem utf8DecodeGo_of_le (fuel : Nat) (l : List Nat) (h : l.length ≤ fuel) :
    utf8DecodeGo fuel l = utf8Decode l := by
  unfold utf8Decode
  obtain ⟨k, rfl⟩ : ∃ k, fuel = l.length + k := ⟨fuel - l.length, by omega⟩
  induction k with
  | zero => rfl
  | succ k ih =>
    rw [show l.length + (k + 1) = (l.length + k) + 1 from rfl,
      utf8DecodeGo_succ _ _ (by omega), ih (by omega)]

theorem utf8Decode_cons (b : Nat) (bs : List Nat) :
    utf8Decode (b :: bs) =
      match utf8DecodeStep b bs with
      | none => none
      | some (c, rest) => (utf8Decode rest).map (fun cs => c :: cs) := by
  show utf8DecodeGo (b :: bs).length (b :: bs) = _
  rw [List.length_cons]
  simp only [utf8DecodeGo]
  cases hstep : utf8DecodeStep b bs with
  | none => rfl
  | some p =>
    obtain ⟨c, rest⟩ := p
    dsimp only
    rw [utf8DecodeGo_of_le bs.length rest (utf8DecodeStep_length b bs c rest hstep)]

theorem toNat_ofNat_of_valid (n : Nat) (h : n.isValidChar) :
    (Char.ofNat n).toNat = n := by
  simp [Char.ofNat, dif_pos h, Char.ofNatAux, Char.toNat, UInt32.toNat]

theorem ofNat_ne_nl (v : Nat) (hv : v ≠ 10) : Char.ofNat v ≠ '\n' := by
  intro h
  by_cases hval : v.isValidChar
  · have h1 := toNat_ofNat_of_valid v hval
    rw [h] at h1
    have h2 : ('\n').toNat = 10 := by decide
    omega
  · rw [Char.ofNat, dif_neg hval] at h
    exact absurd h (by decide)

theorem utf8Decode_append_ascii (a : Nat) (ha : a < 0x80) (xs : List Nat) :
    utf8Decode (xs ++ [a]) =
      (utf8Decode xs).map (fun cs => cs ++ [Char.ofNat a]) := by
  suffices hgen : ∀ n (xs : List Nat), xs.length ≤ n →
      utf8Decode (xs ++ [a]) =
        (utf8Decode xs).map (fun cs => cs ++ [Char.ofNat a]) from
    hgen xs.length xs le_rfl
  intro n
  induction n with
  | zero =>
    intro xs hx
    have hnil : xs = [] := List.eq_nil_of_length_eq_zero (by omega)
    subst hnil
    rw [List.nil_append, utf8Decode_cons]
    simp [utf8DecodeStep, ha, utf8Decode, utf8DecodeGo]
  | succ n ih =>
    intro xs hx
    cases xs with
    | nil =>
      rw [List.nil_append, utf8Decode_cons]
      simp [utf8DecodeStep, ha, utf8Decode, utf8DecodeGo]
    | cons b bs =>
      rw [List.cons_append, utf8Decode_cons b (bs ++ [a]), utf8Decode_cons b bs]
      cases hstep : utf8DecodeStep b bs with
      | none =>
        rw [utf8DecodeStep_append_none b a bs ha hstep]
        rfl
      | some p =>
        obtain ⟨c, rest⟩ := p
        rw [utf8DecodeStep_append b bs c rest [a] hstep]
        dsimp only
        have hr := utf8DecodeStep_length b bs c rest hstep
        simp only [List.length_cons] at hx
        rw [ih rest (by omega)]
        cases utf8Decode rest <;> simp

set_option maxHeartbeats 2000000 in
theorem utf8DecodeStep_char_ne_nl (b : Nat) (bs : List Nat) (c : Char)
    (rest : List Nat) (hb : b ≠ 10) (h : utf8DecodeStep b bs = some (c, rest)) :
    c ≠ '\n' := by
  unfold utf8DecodeStep at h
  simp only [threeByteCond, fourByteCond, contByte] at h
  rcases bs with _ | ⟨b1, _ | ⟨b2, _ | ⟨b3, rest2⟩⟩⟩
  all_goals (repeat' split at h)
  all_goals simp_all
  all_goals (obtain ⟨hc, -⟩ := h)
  all_goals (rw [← hc])
  all_goals (apply ofNat_ne_nl)
  all_goals omega

theorem utf8DecodeStep_rest_sub (b : Nat) (bs : List Nat) (c : Char)
    (rest : List Nat) (h : utf8DecodeStep b bs = some (c, rest)) :
    ∀ x, x ∈ rest → x ∈ bs := by
  unfold utf8DecodeStep at h
  rcases bs with _ | ⟨b1, _ | ⟨b2, _ | ⟨b3, rest2⟩⟩⟩
  all_goals (repeat' split at h)
  all_goals simp_all

theorem utf8Decode_no_nl (xs : List Nat) (cs : List Char)
    (hd : utf8Decode xs = some cs) (h10 : 10 ∉ xs) : '\n' ∉ cs := by
  suffices hgen : ∀ n (xs : List Nat) (cs : List Char), xs.length ≤ n →
      utf8Decode xs = some cs → 10 ∉ xs → '\n' ∉ cs from
    hgen xs.length xs cs le_rfl hd h10
  intro n
  induction n with
  | zero =>
    intro xs cs hlen hd h10x
    have hnil : xs = [] := List.eq_nil_of_length_eq_zero (by omega)
    subst hnil
    have : cs = [] := by simpa [utf8Decode, utf8DecodeGo] using hd.symm
    simp [this]
  | succ n ih =>
    intro xs cs hlen hd h10x
    cases xs with
    | nil =>
      have : cs = [] := by simpa [utf8Decode, utf8DecodeGo] using hd.symm
      simp [this]
    | cons b bs =>
      rw [utf8Decode_cons] at hd
      cases hstep : utf8DecodeStep b bs with
      | none => rw [hstep] at hd; simp at hd
      | some p =>
        obtain ⟨c, rest⟩ := p
        rw [hstep] at hd
        dsimp only at hd
        cases hrest : utf8Decode rest with
        | none => rw [hrest] at hd; simp at hd
        | some cs' =>
          rw [hrest] at hd
          simp at hd
          subst hd
          intro hmem
          have hbne : b ≠ 10 := fun hb => h10x (hb ▸ List.mem_cons_self b bs)
          rcases List.mem_cons.mp hmem with h1 | h1
          · exact utf8DecodeStep_char_ne_nl b bs c rest hbne hstep h1.symm
          · have hr := utf8DecodeStep_length b bs c rest hstep
            simp only [List.length_cons] at hlen
            have h10r : 10 ∉ rest := fun hx =>
              h10x (List.mem_cons_of_mem b
                (utf8DecodeStep_rest_sub b bs c rest hstep 10 hx))
            exact ih rest cs' (by omega) hrest h10r h1

theorem stripLineEnding_concat_nl (t : List Char) :
    stripLineEnding (t ++ ['\n']) = stripCRchar t := by
  simp [stripLineEnding, stripCRchar, List.getLast?_concat, List.dropLast_concat]

theorem stripLineEnding_no_nl (t : List Char) (h : '\n' ∉ t) :
    stripLineEnding t = t := by
  rw [stripLineEnding, if_neg]
  intro hlast
  exact h (List.mem_of_getLast?_eq_some hlast)

theorem chunks_eq_segs (input : List Nat) :
    readLineChunks input =
      (splitSegs input).map (fun p => if p.2 then p.1 ++ [10] else p.1) := by
  induction input with
  | nil => rfl
  | cons b bs ih =>
    by_cases hb : b = 10
    · subst hb
      simp only [readLineChunks, splitSegs, if_pos rfl, List.map_cons, ih]
      rfl
    · simp only [readLineChunks, splitSegs, if_neg hb]
      cases hsegs : splitSegs bs with
      | nil =>
        rw [ih, hsegs]
        rfl
      | cons p rest =>
        obtain ⟨s, f⟩ := p
        rw [ih, hsegs]
        by_cases hf : f <;> simp [hf]

theorem splitSegs_no_nl (input : List Nat) :
    ∀ p ∈ splitSegs input, 10 ∉ p.1 := by
  induction input with
  | nil => simp [splitSegs]
  | cons b bs ih =>
    intro p hp
    by_cases hb : b = 10
    · subst hb
      simp only [splitSegs, if_pos rfl] at hp
      cases hp with
      | head => simp
      | tail _ hp => exact ih p hp
    · simp only [splitSegs, if_neg hb] at hp
      revert hp
      cases hsegs : splitSegs bs with
      | nil =>
        intro hp
        cases hp with
        | head =>
          simp only [List.mem_singleton]
          omega
        | tail _ hp => cases hp
      | cons q rest =>
        obtain ⟨s, f⟩ := q
        intro hp
        cases hp with
        | head =>
          have hs : 10 ∉ s := by
            have := ih (s, f) (by rw [hsegs]; exact List.mem_cons_self _ _)
            simpa using this
          simp only [List.mem_cons, not_or]
          exact ⟨fun h => hb h.symm, hs⟩
        | tail _ hp => exact ih p (by rw [hsegs]; exact List.mem_cons_of_mem _ hp)

theorem sendLines_all_ok (st : Stream) (cs : List (List Nat))
    (h : ∀ c ∈ cs, (utf8Decode c).isSome = true) :
    sendLines st cs = (cs.map (fun c => ⟨chunkText c, st⟩), .ok ()) := by
  induction cs with
  | nil => rfl
  | cons c cs ih =>
    obtain ⟨t, ht⟩ :=
      Option.isSome_iff_exists.mp (h c (List.mem_cons_self c cs))
    simp [sendLines, linesNext, ht, chunkText,
      ih (fun x hx => h x (List.mem_cons_of_mem c hx))]

theorem sendLines_first_err (st : Stream) (pre : List (List Nat))
    (bad : List Nat) (post : List (List Nat))
    (hpre : ∀ c ∈ pre, (utf8Decode c).isSome = true)
    (hbad : utf8Decode bad = none) :
    sendLines st (pre ++ bad :: post) =
      (pre.map (fun c => ⟨chunkText c, st⟩), .error .decodeError) := by
  induction pre with
  | nil => simp [sendLines, linesNext, hbad]
  | cons c cs ih =>
    obtain ⟨t, ht⟩ :=
      Option.isSome_iff_exists.mp (hpre c (List.mem_cons_self c cs))
    simp [sendLines, linesNext, ht, chunkText,
      ih (fun x hx => hpre x (List.mem_cons_of_mem c hx))]

/-! Claim theorems. -/

/-- Claim C2: for every `DisplayLog` buffer and every render width, the
tail window built by `_build_msg` has exactly `max_lines` visual rows — the
renders of the last `min (max_lines, length)` log lines in their original
order followed by blank padding rows — and `max_lines` defaults to
`MAX_LINES = 4` in every state `State::new` builds. -/
theorem c2_tail_window_rows (s : State) :
    (buildRows s).length = s.max_lines ∧
    buildRows s =
      (s.buf.drop (s.buf.length - s.max_lines)).map (renderRow (stateWidth s))
        ++ List.replicate (s.max_lines - min s.max_lines s.buf.length)
            (blankRow (stateWidth s)) ∧
    (s.buf.drop (s.buf.length - s.max_lines)).length
      = min s.max_lines s.buf.length ∧
    (∀ tl tc : Nat, (State.new tl tc).max_lines = MAX_LINES) ∧
    MAX_LINES = 4 := by
  have hlen : (s.buf.drop (s.buf.length - s.max_lines)).length
      = min s.max_lines s.buf.length := by
    rw [List.length_drop]
    rcases Nat.le_total s.max_lines s.buf.length with h | h
    · rw [Nat.min_eq_left h]; omega
    · rw [Nat.min_eq_right h]; omega
  have hmaplen :
      ((s.buf.drop (s.buf.length - s.max_lines)).map
        (renderRow (stateWidth s))).length = min s.max_lines s.buf.length := by
    rw [List.length_map, hlen]
  have hrows : buildRows s =
      (s.buf.drop (s.buf.length - s.max_lines)).map (renderRow (stateWidth s))
        ++ List.replicate (s.max_lines - min s.max_lines s.buf.length)
            (blankRow (stateWidth s)) := by
    unfold buildRows
    rw [List.take_append_eq_append_take, List.take_replicate, hmaplen,
      List.take_of_length_le (hmaplen ▸ Nat.min_le_left _ _)]
    rw [Nat.min_eq_left (Nat.sub_le _ _)]
  refine ⟨?_, hrows, hlen, fun tl tc => rfl, rfl⟩
  rw [hrows, List.length_append, hmaplen, List.length_replicate]
  have := Nat.min_le_left s.max_lines s.buf.length
  omega

/-- Claim C3: the truncation used by the renderer keeps at most `width`
Unicode scalar values and is a prefix of the original character sequence
(`cs.take k` for some `k`), so no character is ever split mid-codepoint;
the function is total, so no input can make it panic. -/
theorem c3_truncation_safe (cs : List Char) (width : Nat) :
    (truncLine cs width).length ≤ width ∧
    truncLine cs width = cs.take (min cs.length width) := by
  have hb := length_le_byteLen cs
  constructor
  · simp only [truncLine, List.length_take]
    omega
  · simp only [truncLine, List.take_eq_take]
    omega

/-- Claim C5: `progress` appends exactly one entry to the log and keeps
every existing entry in place, so a run that starts from `State::new` and
processes the delivered lines ends with a log equal to those lines, of
length equal to the number of lines received. -/
theorem c5_display_log_append_only (s : State) (l : Line)
    (tl tc : Nat) (ls : List Line) :
    (progress s l).buf = s.buf ++ [l] ∧
    (ls.foldl progress (State.new tl tc)).buf = ls ∧
    (ls.foldl progress (State.new tl tc)).buf.length = ls.length := by
  refine ⟨rfl, ?_, ?_⟩ <;> simp [foldl_progress_buf, State.new]

/-- Claim C6: the dump written by `State::dump` is every entry's text
followed by one newline, in arrival order and without the origin tag, so
splitting the file content back on newlines returns exactly the sequence
of line texts. -/
theorem c6_dump_round_trip (ls : List Line)
    (h : ∀ l ∈ ls, '\n' ∉ l.line) :
    readBackLines (dumpContents ls) = ls.map Line.line := by
  unfold readBackLines
  rw [splitOnNl_dumpContents ls h]
  simp

/-- Claim C4: when every chunk of the byte stream decodes, `_read_stream`
sends one `Line` per chunk of the stream — as many lines as the stream
splits into, in the original order (the i-th sent line is the text of the
i-th chunk), every one tagged with the origin it was given — and returns
success. -/
theorem c4_reader_yields_all_lines (input : List Nat) (st : Stream)
    (h : ∀ c ∈ readLineChunks input, (utf8Decode c).isSome = true) :
    (_read_stream input st).1.map Line.line
        = (readLineChunks input).map chunkText
    ∧ (_read_stream input st).1.length = (readLineChunks input).length
    ∧ (∀ l ∈ (_read_stream input st).1, l.stream = st)
    ∧ (_read_stream input st).2 = .ok () := by
  unfold _read_stream
  rw [sendLines_all_ok st _ h]
  refine ⟨?_, ?_, ?_, rfl⟩
  · simp [List.map_map]
  · simp
  · intro l hl
    simp only [List.mem_map] at hl
    obtain ⟨c, _, rfl⟩ := hl
    rfl

/-- Claim C9: when some chunk of the byte stream fails to decode,
`_read_stream` fails with the decode error, exactly the valid lines before
the failing chunk have been sent (the invalid line is not skipped and
nothing after it is delivered), and the error is fatal to the whole run on
either stream: a `collect` whose stderr stream carries these bytes — with
both handles available, a successful wait and no stderr panic — fails with
`DecodeError`; and a `collect` whose stdout stream carries these bytes —
with both handles available, a successful wait and no panics — never
returns an exit status, failing with `DecodeError` whenever the stderr
reader completed cleanly. -/
theorem c9_decode_error_fatal (input : List Nat) (st : Stream)
    (pre : List (List Nat)) (bad : List Nat) (post : List (List Nat))
    (hsplit : readLineChunks input = pre ++ bad :: post)
    (hpre : ∀ c ∈ pre, (utf8Decode c).isSome = true)
    (hbad : utf8Decode bad = none) :
    (_read_stream input st).2 = .error .decodeError
    ∧ (_read_stream input st).1.map Line.line = pre.map chunkText
    ∧ (_read_stream input st).1.length = pre.length
    ∧ (∀ env : CollectEnv, ∀ status : ExitStatus,
        env.stderrAvail = true → env.stdoutAvail = true →
        env.errPanics = false → env.stderrBytes = input →
        env.waitResult = .ok status →
        collect env = .error .decodeError)
    ∧ (∀ env : CollectEnv, ∀ status : ExitStatus,
        env.stderrAvail = true → env.stdoutAvail = true →
        env.errPanics = false → env.outPanics = false →
        env.stdoutBytes = input →
        env.waitResult = .ok status →
        (readerResult env.stderrBytes .Stderr = .ok () →
          collect env = .error .decodeError)
        ∧ ∃ e : RunError, collect env = .error e) := by
  have hstream : ∀ st' : Stream,
      _read_stream input st' = (pre.map (fun c => ⟨chunkText c, st'⟩),
        .error .decodeError) := by
    intro st'
    unfold _read_stream
    rw [hsplit, sendLines_first_err st' pre bad post hpre hbad]
  refine ⟨?_, ?_, ?_, ?_, ?_⟩
  · rw [hstream st]
  · rw [hstream st]; simp [List.map_map]
  · rw [hstream st]; simp
  · intro env status hA hB hP henv hw
    have hrr : readerResult env.stderrBytes .Stderr = .error .decodeError := by
      rw [henv]
      simp [readerResult, hstream Stream.Stderr]
    simp [collect, hA, hB, hP, hw, hrr]
  · intro env status hA hB hP hQ henv hw
    have hrrout : readerResult env.stdoutBytes .Stdout = .error .decodeError := by
      rw [henv]
      simp [readerResult, hstream Stream.Stdout]
    constructor
    · intro hrerr
      simp [collect, hA, hB, hP, hQ, hw, hrerr, hrrout]
    · cases hrerr : readerResult env.stderrBytes .Stderr with
      | error e =>
        exact ⟨e, by simp [collect, hA, hB, hP, hw, hrerr]⟩
      | ok u =>
        cases u
        exact ⟨.decodeError,
          by simp [collect, hA, hB, hP, hQ, hw, hrerr, hrrout]⟩

/-- Claim C7, counterexample to the claim as stated: in this environment
the stdout reader thread panics, yet `collect` fails with the decode error
propagated from the stderr reader — which is joined first — and not with a
`WorkerFailure`. -/
theorem c7_counterexample :
    (⟨true, true, [255], [], false, true,
        .ok ⟨true, some 0⟩⟩ : CollectEnv).outPanics = true
    ∧ collect ⟨true, true, [255], [], false, true, .ok ⟨true, some 0⟩⟩
        = .error .decodeError
    ∧ RunError.decodeError ≠ RunError.workerFailure Stream.Stdout
    ∧ RunError.decodeError ≠ RunError.workerFailure Stream.Stderr := by
  decide

/-- Claim C7 as amended: given both stream handles and a successful wait,
a panic of the stderr reader always surfaces as `WorkerFailure`; a panic
of the stdout reader surfaces as `WorkerFailure` unless the stderr reader
— joined first — itself propagated an error, which then takes precedence;
in every case a panic makes the whole run fail; `WorkerFailure` is a
constructor distinct from the I/O and decode errors; and `collect` returns
an exit status only when neither reader panicked and both completed
normally. -/
theorem c7_amended_worker_failure (env : CollectEnv) (status : ExitStatus)
    (hA : env.stderrAvail = true) (hB : env.stdoutAvail = true)
    (hw : env.waitResult = .ok status) :
    (env.errPanics = true → collect env = .error (.workerFailure .Stderr))
    ∧ (env.errPanics = false →
        readerResult env.stderrBytes .Stderr = .ok () →
        env.outPanics = true →
        collect env = .error (.workerFailure .Stdout))
    ∧ ((env.errPanics = true ∨ env.outPanics = true) →
        ∃ e : RunError, collect env = .error e)
    ∧ (∀ w : Stream, RunError.workerFailure w ≠ RunError.ioError
        ∧ RunError.workerFailure w ≠ RunError.decodeError)
    ∧ (∀ s' : ExitStatus, collect env = .ok s' →
        env.errPanics = false ∧ env.outPanics = false
        ∧ readerResult env.stderrBytes .Stderr = .ok ()
        ∧ readerResult env.stdoutBytes .Stdout = .ok ()
        ∧ s' = status) := by
  refine ⟨?_, ?_, ?_, ?_, ?_⟩
  · intro hp
    simp [collect, hA, hB, hw, hp]
  · intro hp hr hq
    simp [collect, hA, hB, hw, hp, hr, hq]
  · intro hor
    cases hep : env.errPanics with
    | true => exact ⟨.workerFailure .Stderr, by simp [collect, hA, hB, hw, hep]⟩
    | false =>
      have hq : env.outPanics = true := by
        rcases hor with h | h
        · rw [h] at hep; cases hep
        · exact h
      cases hr : readerResult env.stderrBytes .Stderr with
      | error e => exact ⟨e, by simp [collect, hA, hB, hw, hep, hr]⟩
      | ok u =>
        cases u
        exact ⟨.workerFailure .Stdout, by simp [collect, hA, hB, hw, hep, hr, hq]⟩
  · intro w
    exact ⟨fun h => RunError.noConfusion h, fun h => RunError.noConfusion h⟩
  · intro s' hok
    cases hep : env.errPanics with
    | true => simp [collect, hA, hB, hw, hep] at hok
    | false =>
      cases hr : readerResult env.stderrBytes .Stderr with
      | error e => simp [collect, hA, hB, hw, hep, hr] at hok
      | ok u =>
        cases u
        cases hq : env.outPanics with
        | true => simp [collect, hA, hB, hw, hep, hr, hq] at hok
        | false =>
          cases hr2 : readerResult env.stdoutBytes .Stdout with
          | error e => simp [collect, hA, hB, hw, hep, hr, hq, hr2] at hok
          | ok u2 =>
            cases u2
            simp [collect, hA, hB, hw, hep, hr, hq, hr2] at hok
            exact ⟨rfl, rfl, rfl, rfl, hok.symm⟩

/-- Claim C8: a child that exits with a non-success status is not an
internal error — with spawn, collect and the dump all succeeding,
`spawn_with_progress` returns `Ok` carrying that status and the dump path,
after clearing the indicator, and it picks the failure presentation (the
exit-code message in red), which differs from the success presentation
(`Success!` in green) in both text and colour. -/
theorem c8_child_failure_outcome (env : RunEnv) (delivered : List Line)
    (status : ExitStatus)
    (hs : env.spawnOk = true) (hcp : env.collectorPanics = false)
    (hc : collect env.collectEnv = .ok status)
    (hf : status.success = false) (hd : env.dumpOk = true) :
    (spawn_with_progress env delivered).1 = .ok (status, env.dumpPath)
    ∧ (spawn_with_progress env delivered).2.presentation
        = some (failureMsgChars status, Color.red)
    ∧ (spawn_with_progress env delivered).2.indicatorCleared = true
    ∧ failureMsgChars status ≠ msgSuccess
    ∧ Color.red ≠ Color.green := by
  have hne : failureMsgChars status ≠ msgSuccess := by
    intro h
    have h1 : (failureMsgChars status).head? = some 'C' := by
      cases hcode : status.code <;> simp only [failureMsgChars, hcode] <;> rfl
    rw [h] at h1
    exact absurd h1 (by decide)
  refine ⟨?_, ?_, ?_, hne, by decide⟩ <;>
    simp [spawn_with_progress, spawnRun, hs, hcp, hc, hf, hd]

/-- Claim C1, actual behaviour of the spawn-error path: when
`cmd.spawn()` fails, the run fails fast with `SpawnError` and no dump file
is written, as the claim says; but the live indicator — created and set
ticking by `State::new` at run start — has not been stopped and cleared
when the run returns, because the `?` on the `spawn` call skips the
`finish_and_clear` that only the successful path executes. -/
theorem c1_spawn_error_path (env : RunEnv) (delivered : List Line)
    (h : env.spawnOk = false) :
    (spawn_with_progress env delivered).1 = .error .spawnError
    ∧ (spawn_with_progress env delivered).2.dumpWritten = false
    ∧ (spawn_with_progress env delivered).2.indicatorCreated = true
    ∧ (spawn_with_progress env delivered).2.indicatorCleared = false := by
  refine ⟨?_, ?_, ?_, ?_⟩ <;> simp [spawn_with_progress, spawnRun, h]

/-- Claim C10, counterexample to the claim as stated: on the byte stream
`"a\r"` — a final line not terminated by a newline, ending in a carriage
return — `_read_stream` delivers the text `"a\r"` unchanged, while the
claimed semantics (a single trailing CR stripped from each line) would
deliver `"a"`. -/
theorem c10_counterexample :
    (_read_stream [97, 13] Stream.Stdout).1.map Line.line = [['a', '\r']]
    ∧ claimedLinesC10 [97, 13] = [['a']]
    ∧ (_read_stream [97, 13] Stream.Stdout).1.map Line.line
        ≠ claimedLinesC10 [97, 13] := by
  decide

/-- Claim C10 as amended: lines are split on `'\n'`; a single trailing
`'\r'` is stripped from a line only when that line was terminated by
`'\n'` (so CRLF-terminated input yields the same texts as LF-terminated
input); a final line not terminated by a newline is still delivered as one
line, as decoded, retaining any trailing `'\r'`. -/
theorem c10_amended_line_splitting (input : List Nat) (st : Stream)
    (h : ∀ p ∈ splitSegs input, (utf8Decode p.1).isSome = true) :
    (_read_stream input st).1.map Line.line = amendedLinesC10 input := by
  have hnl10 : Char.ofNat 10 = '\n' := by decide
  have hvalid : ∀ c ∈ readLineChunks input, (utf8Decode c).isSome = true := by
    rw [chunks_eq_segs input]
    intro c hc
    simp only [List.mem_map] at hc
    obtain ⟨p, hp, rfl⟩ := hc
    by_cases hflag : p.2
    · rw [if_pos hflag, utf8Decode_append_ascii 10 (by omega) p.1]
      obtain ⟨t, ht⟩ := Option.isSome_iff_exists.mp (h p hp)
      rw [ht]
      rfl
    · rw [if_neg hflag]
      exact h p hp
  unfold _read_stream
  rw [sendLines_all_ok st _ hvalid]
  dsimp only
  simp only [List.map_map]
  rw [chunks_eq_segs input, amendedLinesC10, List.map_map]
  apply List.map_congr_left
  intro p hp
  obtain ⟨t, ht⟩ := Option.isSome_iff_exists.mp (h p hp)
  by_cases hflag : p.2
  · simp [Function.comp, hflag, chunkText,
      utf8Decode_append_ascii 10 (by omega) p.1, ht, hnl10,
      stripLineEnding_concat_nl]
  · have h10 : 10 ∉ p.1 := splitSegs_no_nl input p hp
    have hnl : '\n' ∉ t := utf8Decode_no_nl p.1 t ht h10
    simp [Function.comp, hflag, chunkText, ht, stripLineEnding_no_nl t hnl]

/-! Witnesses: each claim theorem applied at one concrete input, with its
hypotheses discharged there. -/

/-- Witness for C1 at a concrete environment whose spawn fails. -/
theorem c1_spawn_error_path_witness :
    exEnvSpawnFail.spawnOk = false
    ∧ ((spawn_with_progress exEnvSpawnFail []).1 = .error .spawnError
      ∧ (spawn_with_progress exEnvSpawnFail []).2.dumpWritten = false
      ∧ (spawn_with_progress exEnvSpawnFail []).2.indicatorCreated = true
      ∧ (spawn_with_progress exEnvSpawnFail []).2.indicatorCleared = false) :=
  ⟨rfl, c1_spawn_error_path exEnvSpawnFail [] rfl⟩

/-- Witness for C2 at a concrete two-line state. -/
theorem c2_tail_window_rows_witness :
    (buildRows exState).length = exState.max_lines
    ∧ buildRows exState =
        (exState.buf.drop (exState.buf.length - exState.max_lines)).map
            (renderRow (stateWidth exState))
          ++ List.replicate
              (exState.max_lines - min exState.max_lines exState.buf.length)
              (blankRow (stateWidth exState))
    ∧ (exState.buf.drop (exState.buf.length - exState.max_lines)).length
        = min exState.max_lines exState.buf.length
    ∧ (∀ tl tc : Nat, (State.new tl tc).max_lines = MAX_LINES)
    ∧ MAX_LINES = 4 :=
  c2_tail_window_rows exState

/-- Witness for C3 at the multi-byte text of the source's unicode test,
truncated to width `1`. -/
theorem c3_truncation_safe_witness :
    (truncLine "ëëëëf".data 1).length ≤ 1
    ∧ truncLine "ëëëëf".data 1 = "ëëëëf".data.take (min "ëëëëf".data.length 1) :=
  c3_truncation_safe "ëëëëf".data 1

/-- Witness for C4 at the two-line stream `"hi\nthere\n"`. -/
theorem c4_reader_yields_all_lines_witness :
    (∀ c ∈ readLineChunks exC4Input, (utf8Decode c).isSome = true)
    ∧ ((_read_stream exC4Input Stream.Stdout).1.map Line.line
          = (readLineChunks exC4Input).map chunkText
      ∧ (_read_stream exC4Input Stream.Stdout).1.length
          = (readLineChunks exC4Input).length
      ∧ (∀ l ∈ (_read_stream exC4Input Stream.Stdout).1, l.stream = .Stdout)
      ∧ (_read_stream exC4Input Stream.Stdout).2 = .ok ()) :=
  ⟨by decide, c4_reader_yields_all_lines exC4Input .Stdout (by decide)⟩

/-- Witness for C5 at a concrete state, line and delivery list. -/
theorem c5_display_log_append_only_witness :
    (progress exState ⟨"x".data, .Stdout⟩).buf
        = exState.buf ++ [⟨"x".data, .Stdout⟩]
    ∧ (exLines.foldl progress (State.new 10 12)).buf = exLines
    ∧ (exLines.foldl progress (State.new 10 12)).buf.length = exLines.length :=
  c5_display_log_append_only exState ⟨"x".data, .Stdout⟩ 10 12 exLines

/-- Witness for C6 at the two-line log `exLines`. -/
theorem c6_dump_round_trip_witness :
    (∀ l ∈ exLines, '\n' ∉ l.line)
    ∧ readBackLines (dumpContents exLines) = exLines.map Line.line :=
  ⟨by decide, c6_dump_round_trip exLines (by decide)⟩

/-- Witness for the amended C7 at an environment whose stderr reader
panics. -/
theorem c7_amended_worker_failure_witness :
    (⟨true, true, [], [], true, false,
        .ok exStatusOk⟩ : CollectEnv).stderrAvail = true
    ∧ (⟨true, true, [], [], true, false,
        .ok exStatusOk⟩ : CollectEnv).stdoutAvail = true
    ∧ (⟨true, true, [], [], true, false,
        .ok exStatusOk⟩ : CollectEnv).waitResult = .ok exStatusOk
    ∧ (((⟨true, true, [], [], true, false,
          .ok exStatusOk⟩ : CollectEnv).errPanics = true →
        collect ⟨true, true, [], [], true, false, .ok exStatusOk⟩
          = .error (.workerFailure .Stderr))
      ∧ ((⟨true, true, [], [], true, false,
            .ok exStatusOk⟩ : CollectEnv).errPanics = false →
          readerResult (⟨true, true, [], [], true, false,
            .ok exStatusOk⟩ : CollectEnv).stderrBytes .Stderr = .ok () →
          (⟨true, true, [], [], true, false,
            .ok exStatusOk⟩ : CollectEnv).outPanics = true →
          collect ⟨true, true, [], [], true, false, .ok exStatusOk⟩
            = .error (.workerFailure .Stdout))
      ∧ (((⟨true, true, [], [], true, false,
            .ok exStatusOk⟩ : CollectEnv).errPanics = true
          ∨ (⟨true, true, [], [], true, false,
              .ok exStatusOk⟩ : CollectEnv).outPanics = true) →
          ∃ e : RunError,
            collect ⟨true, true, [], [], true, false, .ok exStatusOk⟩
              = .error e)
      ∧ (∀ w : Stream, RunError.workerFailure w ≠ RunError.ioError
          ∧ RunError.workerFailure w ≠ RunError.decodeError)
      ∧ (∀ s' : ExitStatus,
          collect ⟨true, true, [], [], true, false, .ok exStatusOk⟩ = .ok s' →
          (⟨true, true, [], [], true, false,
            .ok exStatusOk⟩ : CollectEnv).errPanics = false
          ∧ (⟨true, true, [], [], true, false,
              .ok exStatusOk⟩ : CollectEnv).outPanics = false
          ∧ readerResult (⟨true, true, [], [], true, false,
              .ok exStatusOk⟩ : CollectEnv).stderrBytes .Stderr = .ok ()
          ∧ readerResult (⟨true, true, [], [], true, false,
              .ok exStatusOk⟩ : CollectEnv).stdoutBytes .Stdout = .ok ()
          ∧ s' = exStatusOk)) :=
  ⟨rfl, rfl, rfl,
    c7_amended_worker_failure ⟨true, true, [], [], true, false, .ok exStatusOk⟩
      exStatusOk rfl rfl rfl⟩

/-- Witness for C8 at an environment whose child exits with status `3`. -/
theorem c8_child_failure_outcome_witness :
    exEnvChildFail.spawnOk = true
    ∧ exEnvChildFail.collectorPanics = false
    ∧ collect exEnvChildFail.collectEnv = .ok exStatusFail
    ∧ exStatusFail.success = false
    ∧ exEnvChildFail.dumpOk = true
    ∧ ((spawn_with_progress exEnvChildFail []).1
          = .ok (exStatusFail, exEnvChildFail.dumpPath)
      ∧ (spawn_with_progress exEnvChildFail []).2.presentation
          = some (failureMsgChars exStatusFail, Color.red)
      ∧ (spawn_with_progress exEnvChildFail []).2.indicatorCleared = true
      ∧ failureMsgChars exStatusFail ≠ msgSuccess
      ∧ Color.red ≠ Color.green) :=
  ⟨rfl, rfl, by decide, rfl, rfl,
    c8_child_failure_outcome exEnvChildFail [] exStatusFail rfl rfl (by decide)
      rfl rfl⟩

/-- Witness for C9 at the stream `"h\n"`, invalid byte, `"a\n"`. -/
theorem c9_decode_error_fatal_witness :
    readLineChunks exC9Input = [[104, 10]] ++ [255, 10] :: [[97, 10]]
    ∧ (∀ c ∈ [[104, 10]], (utf8Decode c).isSome = true)
    ∧ utf8Decode [255, 10] = none
    ∧ ((_read_stream exC9Input Stream.Stdout).2 = .error .decodeError
      ∧ (_read_stream exC9Input Stream.Stdout).1.map Line.line
          = [[104, 10]].map chunkText
      ∧ (_read_stream exC9Input Stream.Stdout).1.length = [[104, 10]].length
      ∧ (∀ env : CollectEnv, ∀ status : ExitStatus,
          env.stderrAvail = true → env.stdoutAvail = true →
          env.errPanics = false → env.stderrBytes = exC9Input →
          env.waitResult = .ok status →
          collect env = .error .decodeError)
      ∧ (∀ env : CollectEnv, ∀ status : ExitStatus,
          env.stderrAvail = true → env.stdoutAvail = true →
          env.errPanics = false → env.outPanics = false →
          env.stdoutBytes = exC9Input →
          env.waitResult = .ok status →
          (readerResult env.stderrBytes .Stderr = .ok () →
            collect env = .error .decodeError)
          ∧ ∃ e : RunError, collect env = .error e)) :=
  ⟨by decide, by decide, by decide,
    c9_decode_error_fatal exC9Input .Stdout [[104, 10]] [255, 10] [[97, 10]]
      (by decide) (by decide) (by decide)⟩

/-- Witness for the amended C10 at the stream `"a\r\nb\n"`. -/
theorem c10_amended_line_splitting_witness :
    (∀ p ∈ splitSegs exC10Input, (utf8Decode p.1).isSome = true)
    ∧ (_read_stream exC10Input Stream.Stdout).1.map Line.line
        = amendedLinesC10 exC10Input :=
  ⟨by decide, c10_amended_line_splitting exC10Input .Stdout (by decide)⟩

end Athens
